import Mathlib

/-!
# Verification of the Madrid business-opportunity pipeline

A shallow embedding of the data pipeline of
`src/visualizacion_locales_movil5.1.py` together with theorems settling the
frozen claims about it.

Conventions of the embedding:
* pandas cells that can be NaN are modelled as `Option` values;
* text is modelled as `List Char`; the Unicode tables (`nfkdChar`,
  `combiningChar`, `upperChar`, `lowerChar`, `isPySpace`) record the genuine
  Unicode data for a documented finite subset of characters (ASCII letters,
  digits, the space, the accented Spanish letters, the combining marks
  U+0301/U+0303/U+0308 and the spacing accent U+00B4).  Theorems about text
  quantify over strings drawn from this modelled subset;
* machine floats hold only values the pipeline computes exactly (quantiles
  and vertex means of the data), so they are modelled as `ℚ`;
* Python exceptions are modelled with `Except`; a caught exception is an
  `Except.error` consumed by a `match`;
* the filesystem seen by `load_geojson` is a parameter:
  `none` = the path does not exist, `some (Except.error ())` = the file
  exists but opening/parsing it raises, `some (Except.ok geo)` = the file
  parses to the collection `geo`.
-/

set_option allowUnsafeReducibility true
attribute [local semireducible] Rat.add Rat.mul Rat.sub Rat.inv Rat.ofScientific

deriving instance DecidableEq for Except

namespace Madrid

/-! ## Text model (`normalize_str`, source lines 107-112)

The modelled character set, with its genuine Unicode data. -/

/-- The characters the text model covers. -/
def modeledChars : List Char :=
  "ABCDEFGHIJKLMNOPQRSTUVWXYZabcdefghijklmnopqrstuvwxyz0123456789 ".toList ++
    "áéíóúñüÁÉÍÓÚÑÜ´".toList ++ ['́', '̃', '̈']

/-- `unicodedata.combining ch != 0` for the modelled characters: exactly the
combining marks U+0301 (acute), U+0303 (tilde), U+0308 (diaeresis). -/
def combiningChar (c : Char) : Bool :=
  c == '́' || c == '̃' || c == '̈'

/-- Full NFKD decomposition of a modelled character
(`unicodedata.normalize("NFKD", ·)`).  The accented letters decompose
canonically into base letter + combining mark; U+00B4 ACUTE ACCENT has the
compatibility decomposition U+0020 U+0301 (a *space* plus the combining
acute); every other modelled character is NFKD-stable.  All modelled
combining marks have the same combining class (230), so canonical reordering
is the identity on decompositions of modelled strings. -/
def nfkdChar (c : Char) : List Char :=
  if c == 'á' then ['a', '́']
  else if c == 'é' then ['e', '́']
  else if c == 'í' then ['i', '́']
  else if c == 'ó' then ['o', '́']
  else if c == 'ú' then ['u', '́']
  else if c == 'ñ' then ['n', '̃']
  else if c == 'ü' then ['u', '̈']
  else if c == 'Á' then ['A', '́']
  else if c == 'É' then ['E', '́']
  else if c == 'Í' then ['I', '́']
  else if c == 'Ó' then ['O', '́']
  else if c == 'Ú' then ['U', '́']
  else if c == 'Ñ' then ['N', '̃']
  else if c == 'Ü' then ['U', '̈']
  else if c == '´' then [' ', '́']
  else [c]

/-- Python `str.upper` on the modelled characters (all its case mappings
here are one-to-one). -/
def upperChar (c : Char) : Char :=
  if 'a' ≤ c ∧ c ≤ 'z' then Char.ofNat (c.toNat - 32)
  else if c == 'á' then 'Á'
  else if c == 'é' then 'É'
  else if c == 'í' then 'Í'
  else if c == 'ó' then 'Ó'
  else if c == 'ú' then 'Ú'
  else if c == 'ñ' then 'Ñ'
  else if c == 'ü' then 'Ü'
  else c

/-- Python `str.lower` on the modelled characters. -/
def lowerChar (c : Char) : Char :=
  if 'A' ≤ c ∧ c ≤ 'Z' then Char.ofNat (c.toNat + 32)
  else if c == 'Á' then 'á'
  else if c == 'É' then 'é'
  else if c == 'Í' then 'í'
  else if c == 'Ó' then 'ó'
  else if c == 'Ú' then 'ú'
  else if c == 'Ñ' then 'ñ'
  else if c == 'Ü' then 'ü'
  else c

/-- The whitespace of the modelled set (Python `str.strip` with no
argument strips it at both ends). -/
def isPySpace (c : Char) : Bool := c == ' '

/-- Text values are lists of characters. -/
abbrev Str := List Char

/-- Python `str.strip()` restricted to the modelled whitespace. -/
def pyStrip (s : Str) : Str :=
  ((s.dropWhile isPySpace).reverse.dropWhile isPySpace).reverse

/-- Python `str.lower()`. -/
def pyLower (s : Str) : Str := s.map lowerChar

/-- `normalize_str` (source lines 107-112): a missing value (`pd.isna`)
yields `""`; otherwise strip, NFKD-decompose, drop combining marks,
uppercase. -/
def normalize_str (x : Option Str) : Str :=
  match x with
  | none => []
  | some s =>
    let s1 := pyStrip s
    let s2 := (s1.flatMap nfkdChar).filter (fun c => !combiningChar c)
    s2.map upperChar

/-! ## Quantile tiering (`quantile_labels`, source lines 147-174)

pandas semantics embedded: `Series.quantile` with linear interpolation,
`pd.qcut(…, duplicates="drop", labels=…)` with its internal
`_bins_to_cuts` (dedup of the bin edges, the label-length check that raises
`ValueError`, `searchsorted(side="left")` with `include_lowest=True`). -/

/-- Helper of `uniqueFirst`: the elements of `l` not in `seen`, keeping
first occurrences. -/
def uniqueFirstAux {α : Type} [DecidableEq α] (seen : List α) : List α → List α
  | [] => []
  | a :: l =>
    if a ∈ seen then uniqueFirstAux seen l
    else a :: uniqueFirstAux (a :: seen) l

/-- First-occurrence deduplication, as `pandas.unique` /
`algos.unique`. -/
def uniqueFirst {α : Type} [DecidableEq α] (l : List α) : List α :=
  uniqueFirstAux [] l

/-- `Series.quantile q` (linear interpolation) on an already-sorted list:
position `h = q * (n - 1)`, value `x⌊h⌋ + (h - ⌊h⌋) * (x⌈h⌉ - x⌊h⌋)`. -/
def quantileSorted (xs : List ℚ) (q : ℚ) : ℚ :=
  let n := xs.length
  let h : ℚ := q * ((n : ℚ) - 1)
  let i : ℕ := (⌊h⌋).toNat
  let lo := xs.getD i 0
  let hi := xs.getD (min (i + 1) (n - 1)) 0
  lo + (h - (i : ℚ)) * (hi - lo)

/-- `Series.quantile` of an unsorted series. -/
def quantileOf (s : List ℚ) (q : ℚ) : ℚ :=
  quantileSorted (List.insertionSort (· ≤ ·) s) q

/-- `Series.median()` = the 0.5 quantile with linear interpolation. -/
def medianQ (s : List ℚ) : ℚ := quantileOf s (1 / 2)

/-- `Series.nunique()` (the series here never holds NaN). -/
def nuniqueQ (s : List ℚ) : ℕ := (uniqueFirst s).length

/-- `numpy.searchsorted(bins, v, side="left")` for the sorted edge lists
the pipeline produces: the number of leading edges strictly below `v`. -/
def searchsortedLeft (bins : List ℚ) (v : ℚ) : ℕ :=
  (bins.takeWhile (fun e => decide (e < v))).length

/-- Bin assignment of `_bins_to_cuts`: `ids = searchsorted(bins, v, "left")`,
then `ids[v == bins[0]] = 1` (`include_lowest=True`); an id outside
`[1, len(bins) - 1]` is NA (`none`), otherwise the label of bin
`ids - 1`. -/
def assignBin (bins : List ℚ) (labels : List String) (v : ℚ) : Option String :=
  let i0 := searchsortedLeft bins v
  let i := if bins.head? = some v then 1 else i0
  if 1 ≤ i ∧ i ≤ bins.length - 1 then labels.get? (i - 1) else none

/-- `pd.qcut(s, q=qs, duplicates="drop", labels=labels)`: edges are the
`qs`-quantiles of `s`; duplicate edges are dropped (when more than 2 edges);
if the label count then differs from the bin count, `ValueError` is raised
(`Except.error`); otherwise every value is assigned its bin label. -/
def pdQcut (s : List ℚ) (qs : List ℚ) (labels : List String) :
    Except Unit (List (Option String)) :=
  let xs := List.insertionSort (· ≤ ·) s
  let edges := qs.map (quantileSorted xs)
  let bins :=
    if (uniqueFirst edges).length < edges.length ∧ edges.length ≠ 2 then uniqueFirst edges
    else edges
  if labels.length ≠ bins.length - 1 then Except.error ()
  else Except.ok (s.map (fun v => assignBin bins labels v))

/-- `np.linspace(0, 1, k + 1)`, the quantile points pandas uses for an
integer bin count `k`. -/
def linspace01 (k : ℕ) : List ℚ :=
  (List.range (k + 1)).map (fun j => (j : ℚ) / (k : ℚ))

/-- The default label tuple of `quantile_labels`. -/
def labels4 : List String := ["Muy baja", "Baja", "Media", "Alta"]

/-- The default quantile points `[0, .25, .5, .75, 1.0]`. -/
def q4 : List ℚ := [0, 1 / 4, 1 / 2, 3 / 4, 1]

/-- `quantile_labels` (source lines 147-174), with its full fallback
ladder.  NaN is never in the input (the pipeline feeds it integer counts),
so `s.nunique()` is `nuniqueQ`.  A label that pandas would make NA is
`none`. -/
def quantile_labels (s : List ℚ) : List (Option String) :=
  if nuniqueQ s ≤ 1 then List.replicate s.length (some "Sin datos")
  else
    match pdQcut s q4 (labels4.take (q4.length - 1)) with
    | Except.ok out => out
    | Except.error _ =>
      if nuniqueQ s = 2 then
        s.map (fun x => some (if x ≤ medianQ s then "Baja" else "Alta"))
      else if nuniqueQ s = 3 then
        s.map (fun x =>
          some (if x ≤ quantileOf s (33 / 100) then "Muy baja"
                else if x ≤ quantileOf s (67 / 100) then "Baja" else "Media"))
      else
        match pdQcut s (linspace01 (min (nuniqueQ s) 3))
            (["Baja", "Media", "Alta"].take (min (nuniqueQ s - 1) 3)) with
        | Except.ok out => out
        | Except.error _ =>
          s.map (fun x => some (if x ≤ medianQ s then "Baja" else "Alta"))

/-! ## Data model

A business record after `load_data` (source lines 637-692): the text
columns are already passed through `normalize_str` (so they are plain
strings, never NaN), and the coordinate columns are numeric with NaN
modelled as `none`. -/

/-- One row of the loaded dataframe (the columns the pipeline reads). -/
structure BizRec where
  desc_epigrafe : Str
  desc_barrio_local : Str
  desc_distrito_local : Str
  lat : Option ℚ
  lon : Option ℚ
deriving DecidableEq

/-- A GeoJSON geometry.  Points are `(lon, lat)` pairs as in the file.
`other` covers every shape on which `feature_centroid`'s indexing raises
(missing/null geometry, a `Point`, etc.). -/
inductive Geometry : Type
  | polygon (rings : List (List (ℚ × ℚ)))
  | multiPolygon (polys : List (List (List (ℚ × ℚ))))
  | other
deriving DecidableEq

/-- A GeoJSON feature: a property dictionary (string-or-null values, in
file order) and a geometry. -/
structure GFeature where
  properties : List (Str × Option Str)
  geometry : Geometry
deriving DecidableEq

/-- A GeoJSON feature collection. -/
structure GeoJson where
  features : List GFeature
deriving DecidableEq

/-- Python dict lookup over an association list in insertion order; a
repeated key behaves as in a dict (the last write wins). -/
def dictGet {β : Type} (m : List (Str × β)) (k : Str) : Option β :=
  ((m.filter (fun p => decide (p.1 = k))).getLast?).map (fun p => p.2)

/-- `np.array(ring)[:, i].mean()`: the vertex mean.  An empty ring makes
the indexing raise (caught upstream), hence `none`. -/
def ringCentroid (ring : List (ℚ × ℚ)) : Option ℚ × Option ℚ :=
  if ring.isEmpty then (none, none)
  else
    (some ((ring.map Prod.snd).sum / ((ring.map Prod.snd).length : ℚ)),
     some ((ring.map Prod.fst).sum / ((ring.map Prod.fst).length : ℚ)))

/-- `feature_centroid` (source lines 176-189): `(lat, lon)` of the vertex
mean of the outer ring (`coordinates[0]`, or `coordinates[0][0]` for a
multi-polygon); every failure (non-polygon type, empty coordinate arrays)
is caught and yields `(NaN, NaN)` = `(none, none)`. -/
def feature_centroid (f : GFeature) : Option ℚ × Option ℚ :=
  match f.geometry with
  | Geometry.polygon (ring :: _) => ringCentroid ring
  | Geometry.polygon [] => (none, none)
  | Geometry.multiPolygon ((ring :: _) :: _) => ringCentroid ring
  | Geometry.multiPolygon _ => (none, none)
  | Geometry.other => (none, none)

/-! ## Boundary index (`load_geojson`, source lines 133-145) -/

/-- Python `x or y` on optional strings (`None` and `""` are falsy). -/
def pyOrStr (x y : Option Str) : Option Str :=
  match x with
  | some v => if v = [] then y else some v
  | none => y

/-- `props.get(k)`: `none` both when the key is absent and when its value
is JSON `null`. -/
def pyGetProp (props : List (Str × Option Str)) (k : Str) : Option Str :=
  match dictGet props k with
  | some (some v) => some v
  | _ => none

/-- The name chosen for a feature (source line 141):
`props.get(prop_key) or props.get(prop_key.lower()) or
(list(props.values())[0] if props else None)`. -/
def featName (f : GFeature) (propKey : Str) : Option Str :=
  pyOrStr
    (pyOrStr (pyGetProp f.properties propKey) (pyGetProp f.properties (pyLower propKey)))
    (if f.properties.isEmpty then none else f.properties.head?.bind (fun p => p.2))

/-- The `name_to_feature` dict (source lines 138-144): features whose name
is `None` are skipped; the rest are keyed by the normalized name (a later
feature with the same key overwrites, which `dictGet` honours). -/
def name_to_feature (geo : GeoJson) (propKey : Str) : List (Str × GFeature) :=
  geo.features.foldl
    (fun m feat =>
      match featName feat propKey with
      | none => m
      | some name => m ++ [(normalize_str (some name), feat)])
    []

/-- `load_geojson` (source lines 133-145).  The filesystem is the `file`
parameter: `none` = the path is falsy or does not exist (the guarded
early return `None, None`); `some (Except.error ())` = the file exists but
`open`/`json.load` raises (nothing catches it, so the error propagates);
`some (Except.ok geo)` = the file parses. -/
def load_geojson (file : Option (Except Unit GeoJson)) (propKey : Str) :
    Except Unit (Option GeoJson × Option (List (Str × GFeature))) :=
  match file with
  | none => Except.ok (none, none)
  | some (Except.error e) => Except.error e
  | some (Except.ok geo) => Except.ok (some geo, some (name_to_feature geo propKey))

/-! ## Coordinate completion (source lines 707-739) -/

/-- The `mask_centroid` predicate for one row: `lat.isna() | lon.isna()`. -/
def rowMissing (r : BizRec) : Bool := r.lat.isNone || r.lon.isNone

/-- Python truthiness of an optional dict (`None` and `{}` are falsy). -/
def truthyIndex (m : Option (List (Str × GFeature))) : Bool :=
  match m with
  | none => false
  | some l => !l.isEmpty

/-- The centroid looked up for a name inside one fill pass:
`lat, lon = (nan, nan); if name and name in index: lat, lon =
feature_centroid(index[name])`. -/
def lookupCentroid (idx : List (Str × GFeature)) (name : Str) : Option ℚ × Option ℚ :=
  if name ≠ [] then
    match dictGet idx name with
    | some feat => feature_centroid feat
    | none => (none, none)
  else (none, none)

/-- One row of a fill pass: on a masked row the area name is re-normalized
and looked up; when the looked-up centroid is fully defined (`filled`),
*both* coordinate columns are overwritten with it (`np.where(filled, lats,
old)` on each column); otherwise the row is untouched. -/
def fillFromIndex (idx : List (Str × GFeature)) (name : BizRec → Str) (r : BizRec) :
    BizRec :=
  if rowMissing r then
    match lookupCentroid idx (normalize_str (some (name r))) with
    | (some la, some lo) => { r with lat := some la, lon := some lo }
    | _ => r
  else r

/-- The barrio pass (source lines 713-724): `if barrios_index:` fill every
masked row from its barrio centroid. -/
def barrioStep (bIdx : Option (List (Str × GFeature))) (df : List BizRec) :
    List BizRec :=
  if truthyIndex bIdx then
    df.map (fillFromIndex (bIdx.getD []) (fun r => r.desc_barrio_local))
  else df

/-- The distrito pass (source lines 727-739): the mask is recomputed and
`if mask_centroid.any() and distritos_index:` the still-masked rows are
filled from their distrito centroid. -/
def distritoStep (dIdx : Option (List (Str × GFeature))) (df1 : List BizRec) :
    List BizRec :=
  if df1.any rowMissing && truthyIndex dIdx then
    df1.map (fillFromIndex (dIdx.getD []) (fun r => r.desc_distrito_local))
  else df1

/-- The two-pass coordinate completion at module top level (source lines
707-739): under the outer guard `if mask_centroid.any() and (barrios_index
or distritos_index):`, the barrio pass runs first and the distrito pass on
its result. -/
def completeCoords (bIdx dIdx : Option (List (Str × GFeature))) (df : List BizRec) :
    List BizRec :=
  if df.any rowMissing && (truthyIndex bIdx || truthyIndex dIdx) then
    distritoStep dIdx (barrioStep bIdx df)
  else df

/-! ## Aggregation and the opportunity scorer (source lines 779-902) -/

/-- `df_plot = df[df["desc_epigrafe"] == normalize_str(actividad_sel)]`
(source line 779). -/
def df_plot (df : List BizRec) (actividad_sel : Str) : List BizRec :=
  df.filter (fun r => decide (r.desc_epigrafe = normalize_str (some actividad_sel)))

/-- `groupby(col).size()` (sorted unique keys with their multiplicities;
the keys carry no NaN after `load_data`'s normalization). -/
def groupbySize (keys : List Str) : List (Str × ℕ) :=
  (List.insertionSort (· ≤ ·) (uniqueFirst keys)).map (fun a => (a, keys.count a))

/-- `grupo_barrio` (source line 786). -/
def grupo_barrio (dfp : List BizRec) : List (Str × ℕ) :=
  groupbySize (dfp.map (fun r => r.desc_barrio_local))

/-- `grupo_distrito` (source line 788). -/
def grupo_distrito (dfp : List BizRec) : List (Str × ℕ) :=
  groupbySize (dfp.map (fun r => r.desc_distrito_local))

/-- The `level` selector of `compute_opportunities` ("Barrio"/"Distrito"). -/
inductive Level : Type
  | barrio
  | distrito
deriving DecidableEq

/-- `level_col`: the column read at each granularity. -/
def levelCol (level : Level) (r : BizRec) : Str :=
  match level with
  | Level.barrio => r.desc_barrio_local
  | Level.distrito => r.desc_distrito_local

/-- One output row of the opportunity table: `[level_col, n_locales,
categoria]`. -/
structure ORow where
  area : Str
  n_locales : ℕ
  categoria : Option String
deriving DecidableEq

/-- The sort key of `comp.sort_values(["n_locales", level_col],
ascending=[True, True])`. -/
def rowLe (r s : ORow) : Prop :=
  r.n_locales < s.n_locales ∨ (r.n_locales = s.n_locales ∧ r.area ≤ s.area)

instance : DecidableRel rowLe := fun r s => by unfold rowLe; infer_instance

instance : IsTotal ORow rowLe :=
  ⟨fun a b => by
    unfold rowLe
    rcases lt_trichotomy a.n_locales b.n_locales with h | h | h
    · exact Or.inl (Or.inl h)
    · rcases le_total a.area b.area with ha | ha
      · exact Or.inl (Or.inr ⟨h, ha⟩)
      · exact Or.inr (Or.inr ⟨h.symm, ha⟩)
    · exact Or.inr (Or.inl h)⟩

instance : IsTrans ORow rowLe :=
  ⟨fun a b c hab hbc => by
    unfold rowLe at *
    rcases hab with h1 | ⟨h1, h1'⟩ <;> rcases hbc with h2 | ⟨h2, h2'⟩
    · exact Or.inl (lt_trans h1 h2)
    · exact Or.inl (h2 ▸ h1)
    · exact Or.inl (h1 ▸ h2)
    · exact Or.inr ⟨h1.trans h2, le_trans h1' h2'⟩⟩

/-- `all_areas.merge(existing_areas, how="left", on=level_col)`: each left
row paired with every matching right count, or with NaN (`none`) when no
right row matches. -/
def leftMergeCounts (left : List Str) (right : List (Str × ℕ)) :
    List (Str × Option ℕ) :=
  left.flatMap (fun a =>
    let ms := right.filter (fun p => decide (p.1 = a))
    if ms.isEmpty then [(a, none)] else ms.map (fun p => (a, some p.2)))

/-- `Series.max()` over the (nonempty, integer) count column. -/
def maxN (l : List ℕ) : ℕ := l.foldr max 0

/-- `compute_opportunities` (source lines 869-902): all distinct areas of
the *full* dataset, left-merged with the per-area counts of the selected
activity (`fillna(0)`), tier labels attached (`"Sin datos"` when empty or
all-zero), then sorted by `(n_locales, area)` ascending.  `actividad_sel`
is the sidebar selection; the filter normalizes it as source line 779
does. -/
def compute_opportunities (df : List BizRec) (actividad_sel : Str) (level : Level) :
    List ORow :=
  let all_areas := List.insertionSort (· ≤ ·) (uniqueFirst (df.map (levelCol level)))
  let existing_areas :=
    match level with
    | Level.barrio => grupo_barrio (df_plot df actividad_sel)
    | Level.distrito => grupo_distrito (df_plot df actividad_sel)
  let comp := (leftMergeCounts all_areas existing_areas).map (fun p => (p.1, p.2.getD 0))
  let cats :=
    if 0 < comp.length ∧ 0 < maxN (comp.map (fun p => p.2)) then
      quantile_labels (comp.map (fun p => ((p.2 : ℚ))))
    else List.replicate comp.length (some "Sin datos")
  List.insertionSort rowLe ((comp.zip cats).map (fun pc => ⟨pc.1.1, pc.1.2, pc.2⟩))

/-- The number of records of the normalized activity in area `a` at the
given granularity (what the left merge's zero-filled count must equal). -/
def countMatching (df : List BizRec) (actividad_sel : Str) (level : Level) (a : Str) :
    ℕ :=
  ((df_plot df actividad_sel).map (levelCol level)).count a

/-- The 0/25/50/75/100th-percentile edges `pd.qcut` computes for the
four-way split of `quantile_labels`. -/
def quartileEdges (s : List ℚ) : List ℚ :=
  q4.map (quantileSorted (List.insertionSort (· ≤ ·) s))

/-- "The quartile boundaries coincide": at least two of the five computed
edges are equal (first-occurrence dedup shortens the list). -/
def hasDupEdges (s : List ℚ) : Prop :=
  (uniqueFirst (quartileEdges s)).length < (quartileEdges s).length

instance (s : List ℚ) : Decidable (hasDupEdges s) := by
  unfold hasDupEdges
  infer_instance

/-- Everything of a record except its coordinates (for the
coordinate-independence statement). -/
def stripCoords (r : BizRec) : Str × Str × Str :=
  (r.desc_epigrafe, r.desc_barrio_local, r.desc_distrito_local)

/-- Every tier label `quantile_labels` can emit. -/
def tierLabels : List String := ["Sin datos", "Muy baja", "Baja", "Media", "Alta"]

/-- A boundary feature for neighborhood `B`; its outer ring's vertex mean
is `(lat, lon) = (2, 1)`. -/
def featB : GFeature :=
  ⟨[("NOMBRE".toList, some ("B".toList))], Geometry.polygon [[(0, 0), (2, 4)]]⟩

/-- A boundary feature for district `D`; its outer ring's vertex mean is
`(lat, lon) = (30, 10)`. -/
def featD : GFeature :=
  ⟨[("NOMBRE".toList, some ("D".toList))], Geometry.polygon [[(10, 30)]]⟩

/-- A feature with unusable geometry: `feature_centroid` yields
`(NaN, NaN)`. -/
def featBad : GFeature :=
  ⟨[("NOMBRE".toList, some ("M".toList))], Geometry.other⟩

/-- A concrete five-record dataset: neighborhoods `A` and `B` hold no
record of activity `X`, neighborhood `C` holds three. -/
def exampleDf : List BizRec :=
  [⟨"Y".toList, "A".toList, "DA".toList, none, none⟩,
   ⟨"Y".toList, "B".toList, "DB".toList, none, none⟩,
   ⟨"X".toList, "C".toList, "DC".toList, some 1, some 1⟩,
   ⟨"X".toList, "C".toList, "DC".toList, some 1, some 1⟩,
   ⟨"X".toList, "C".toList, "DC".toList, some 1, some 1⟩]

/-! ## Helper lemmas: first-occurrence dedup -/

theorem mem_uniqueFirstAux {α : Type} [DecidableEq α] {a : α} (l : List α) :
    ∀ seen, a ∈ uniqueFirstAux seen l ↔ a ∈ l ∧ a ∉ seen := by
  induction l with
  | nil => intro seen; simp [uniqueFirstAux]
  | cons b t ih =>
    intro seen
    by_cases hb : b ∈ seen
    · rw [uniqueFirstAux, if_pos hb, ih seen]
      constructor
      · rintro ⟨h1, h2⟩
        exact ⟨List.mem_cons_of_mem _ h1, h2⟩
      · rintro ⟨h1, h2⟩
        rcases List.mem_cons.mp h1 with rfl | h1
        · exact absurd hb h2
        · exact ⟨h1, h2⟩
    · rw [uniqueFirstAux, if_neg hb]
      constructor
      · intro h
        rcases List.mem_cons.mp h with rfl | h
        · exact ⟨List.mem_cons_self _ _, hb⟩
        · rcases (ih (b :: seen)).mp h with ⟨h1, h2⟩
          exact ⟨List.mem_cons_of_mem _ h1, fun hs => h2 (List.mem_cons_of_mem _ hs)⟩
      · rintro ⟨h1, h2⟩
        by_cases hab : a = b
        · subst hab; exact List.mem_cons_self _ _
        · rcases List.mem_cons.mp h1 with rfl | h1
          · exact absurd rfl hab
          · refine List.mem_cons_of_mem _ ((ih (b :: seen)).mpr ⟨h1, fun hs => ?_⟩)
            rcases List.mem_cons.mp hs with rfl | hs
            · exact hab rfl
            · exact h2 hs

theorem mem_uniqueFirst {α : Type} [DecidableEq α] {a : α} {l : List α} :
    a ∈ uniqueFirst l ↔ a ∈ l := by
  rw [uniqueFirst, mem_uniqueFirstAux]
  simp

theorem nodup_uniqueFirstAux {α : Type} [DecidableEq α] (l : List α) :
    ∀ seen, (uniqueFirstAux seen l).Nodup := by
  induction l with
  | nil => intro seen; simp [uniqueFirstAux]
  | cons b t ih =>
    intro seen
    by_cases hb : b ∈ seen
    · rw [uniqueFirstAux, if_pos hb]; exact ih seen
    · rw [uniqueFirstAux, if_neg hb]
      refine List.nodup_cons.mpr ⟨fun hmem => ?_, ih (b :: seen)⟩
      exact ((mem_uniqueFirstAux t (b :: seen)).mp hmem).2 (List.mem_cons_self _ _)

theorem nodup_uniqueFirst {α : Type} [DecidableEq α] (l : List α) :
    (uniqueFirst l).Nodup :=
  nodup_uniqueFirstAux l []

theorem head?_uniqueFirst {α : Type} [DecidableEq α] (l : List α) :
    (uniqueFirst l).head? = l.head? := by
  cases l with
  | nil => rfl
  | cons a t => simp [uniqueFirst, uniqueFirstAux]

/-! ## Helper lemmas: sorted lists, takeWhile -/

theorem sorted_head_le {xs : List ℚ} (hs : xs.Sorted (· ≤ ·)) {v : ℚ} (hv : v ∈ xs)
    {a : ℚ} (ha : xs.head? = some a) : a ≤ v := by
  cases xs with
  | nil => cases hv
  | cons b t =>
    have hab : a = b := by simpa using ha.symm
    subst hab
    rcases List.mem_cons.mp hv with rfl | hv
    · exact le_refl _
    · exact (List.sorted_cons.mp hs).1 _ hv

theorem sorted_le_getD_last {xs : List ℚ} (hs : xs.Sorted (· ≤ ·)) {v : ℚ}
    (hv : v ∈ xs) : v ≤ xs.getD (xs.length - 1) 0 := by
  induction xs with
  | nil => cases hv
  | cons b t ih =>
    cases t with
    | nil =>
      rcases List.mem_cons.mp hv with rfl | hv
      · simp [List.getD]
      · cases hv
    | cons c u =>
      have hgd : (b :: c :: u).getD ((b :: c :: u).length - 1) 0 =
          (c :: u).getD ((c :: u).length - 1) 0 := by
        simp [List.getD_cons_succ]
      rw [hgd]
      rcases List.mem_cons.mp hv with rfl | hv
      · have hmem : (c :: u).getD ((c :: u).length - 1) 0 ∈ c :: u := by
          have hlt : (c :: u).length - 1 < (c :: u).length := by simp
          rw [List.getD_eq_getElem _ _ hlt]
          exact List.getElem_mem hlt
        exact (List.sorted_cons.mp hs).1 _ hmem
      · exact ih (List.sorted_cons.mp hs).2 hv

theorem length_takeWhile_lt {α : Type} (p : α → Bool) {l : List α} {b : α}
    (hb : b ∈ l) (hpb : p b = false) : (l.takeWhile p).length < l.length := by
  have hpre : l.takeWhile p <+: l := List.takeWhile_prefix p
  rcases lt_or_eq_of_le hpre.length_le with h | h
  · exact h
  · exfalso
    have heq : l.takeWhile p = l := hpre.eq_of_length h
    have := List.takeWhile_eq_self_iff.mp heq b hb
    rw [hpb] at this
    cases this

theorem one_le_length_takeWhile {α : Type} (p : α → Bool) (b : α) (t : List α)
    (hpb : p b = true) : 1 ≤ ((b :: t).takeWhile p).length := by
  simp [List.takeWhile_cons, hpb]

/-! ## Helper lemmas: quantile edges -/

theorem quantileSorted_zero (xs : List ℚ) : quantileSorted xs 0 = xs.getD 0 0 := by
  simp [quantileSorted]

theorem quantileSorted_one {xs : List ℚ} (hx : xs ≠ []) :
    quantileSorted xs 1 = xs.getD (xs.length - 1) 0 := by
  simp only [quantileSorted]
  have hn : 1 ≤ xs.length := List.length_pos.mpr hx
  have h1 : (1 : ℚ) * ((xs.length : ℚ) - 1) = ((xs.length - 1 : ℕ) : ℚ) := by
    rw [one_mul, Nat.cast_sub hn, Nat.cast_one]
  rw [h1, Int.floor_natCast, Int.toNat_natCast, min_eq_right (Nat.le_succ _),
    sub_self, zero_mul, add_zero]

/-! ## Helper lemmas: bin assignment and qcut -/

theorem assignBin_mem {bins : List ℚ} {labels : List String} {v : ℚ}
    (hlen : labels.length = bins.length - 1) (hlab : labels ≠ [])
    (hhead : ∀ b0, bins.head? = some b0 → b0 ≤ v)
    (hub : ∃ b ∈ bins, v ≤ b) :
    ∃ l ∈ labels, assignBin bins labels v = some l := by
  obtain ⟨b, hbmem, hbv⟩ := hub
  cases bins with
  | nil => cases hbmem
  | cons b0 t =>
    have hb0 : b0 ≤ v := hhead b0 rfl
    have hlab1 : 1 ≤ labels.length := List.length_pos.mpr hlab
    have htlen : labels.length = t.length := by simpa using hlen
    by_cases hv0 : (b0 :: t).head? = some v
    · cases labels with
      | nil => cases hlab rfl
      | cons l0 ls =>
        refine ⟨l0, List.mem_cons_self _ _, ?_⟩
        simp only [assignBin, if_pos hv0]
        rw [if_pos ⟨le_refl 1, by simp at htlen ⊢; omega⟩]
        rfl
    · have hb0v : b0 < v := lt_of_le_of_ne hb0 fun he => hv0 (by simp [he])
      have hi0ge : 1 ≤ searchsortedLeft (b0 :: t) v :=
        one_le_length_takeWhile _ _ _ (by simpa using hb0v)
      have hi0lt : searchsortedLeft (b0 :: t) v < (b0 :: t).length :=
        length_takeWhile_lt _ hbmem (by simpa using not_lt.mpr hbv)
      have hi0le : searchsortedLeft (b0 :: t) v ≤ t.length := by
        have := hi0lt
        simp only [List.length_cons] at this
        omega
      have hidx : searchsortedLeft (b0 :: t) v - 1 < labels.length := by omega
      refine ⟨labels.get ⟨searchsortedLeft (b0 :: t) v - 1, hidx⟩,
        labels.get_mem _ hidx, ?_⟩
      simp only [assignBin, if_neg hv0]
      rw [if_pos ⟨hi0ge, by simp only [List.length_cons]; omega⟩]
      exact List.get?_eq_get hidx

theorem pdQcut_ok_length {s qs : List ℚ} {labels : List String}
    {out : List (Option String)} (hok : pdQcut s qs labels = Except.ok out) :
    out.length = s.length := by
  simp only [pdQcut] at hok
  split at hok <;> split at hok <;> cases hok <;> simp

theorem pdQcut_ok_labels {s qs : List ℚ} {labels : List String}
    {out : List (Option String)} (hs : s ≠ []) (hq0 : qs.head? = some 0)
    (hq1 : (1 : ℚ) ∈ qs) (hlab : labels ≠ [])
    (hok : pdQcut s qs labels = Except.ok out) :
    out.length = s.length ∧ ∀ o ∈ out, ∃ l ∈ labels, o = some l := by
  refine ⟨pdQcut_ok_length hok, ?_⟩
  have hxs_sorted : (List.insertionSort (· ≤ ·) s).Sorted (· ≤ ·) :=
    List.sorted_insertionSort _ _
  have hxs_perm : (List.insertionSort (· ≤ ·) s).Perm s := List.perm_insertionSort _ _
  have hxne : List.insertionSort (· ≤ ·) s ≠ [] := by
    intro h
    apply hs
    have hperm := hxs_perm
    rw [h] at hperm
    exact hperm.symm.eq_nil
  simp only [pdQcut] at hok
  set xs := List.insertionSort (· ≤ ·) s with hxs
  set edges := qs.map (quantileSorted xs) with hedges
  set bins := if (uniqueFirst edges).length < edges.length ∧ edges.length ≠ 2
    then uniqueFirst edges else edges with hbins
  split at hok
  · cases hok
  · rename_i hcond
    have hlen : labels.length = bins.length - 1 := by
      by_contra hne
      exact hcond hne
    cases hok
    intro o ho
    obtain ⟨v, hv, rfl⟩ := List.mem_map.mp ho
    have hvxs : v ∈ xs := hxs_perm.mem_iff.mpr hv
    have hhead : bins.head? = some (xs.getD 0 0) := by
      have he : edges.head? = some (quantileSorted xs 0) := by
        rw [hedges, List.head?_map, hq0]
        rfl
      have hbe : bins.head? = edges.head? := by
        rw [hbins]
        split
        · exact head?_uniqueFirst edges
        · rfl
      rw [hbe, he, quantileSorted_zero]
    have hub : ∃ b ∈ bins, v ≤ b := by
      refine ⟨quantileSorted xs 1, ?_, ?_⟩
      · have hmem : quantileSorted xs 1 ∈ edges :=
          List.mem_map_of_mem (quantileSorted xs) hq1
        rw [hbins]
        split
        · exact mem_uniqueFirst.mpr hmem
        · exact hmem
      · rw [quantileSorted_one hxne]
        exact sorted_le_getD_last hxs_sorted hvxs
    apply assignBin_mem hlen hlab
    · intro b0 hb0
      rw [hhead] at hb0
      injection hb0 with hb0
      subst hb0
      cases hxx : xs with
      | nil => exact absurd hxx hxne
      | cons x0 u =>
        simp only [List.getD_cons_zero]
        have hss : (x0 :: u).Sorted (· ≤ ·) := hxx ▸ hxs_sorted
        have hvv : v ∈ x0 :: u := hxx ▸ hvxs
        exact sorted_head_le hss hvv rfl
    · exact hub

/-! ## Helper lemmas: quantile_labels -/

theorem quantile_labels_length (s : List ℚ) : (quantile_labels s).length = s.length := by
  unfold quantile_labels
  split
  · simp
  · split
    · rename_i out hq
      exact pdQcut_ok_length hq
    · split
      · simp
      · split
        · simp
        · split
          · rename_i out3 hq3
            exact pdQcut_ok_length hq3
          · simp

theorem quantile_labels_valid {s : List ℚ} (hs : s ≠ []) :
    ∀ o ∈ quantile_labels s, ∃ l, o = some l ∧ l ∈ tierLabels := by
  intro o ho
  unfold quantile_labels at ho
  split at ho
  · rw [List.eq_of_mem_replicate ho]
    exact ⟨"Sin datos", rfl, by decide⟩
  · rename_i hn1
    split at ho
    · rename_i out hq
      obtain ⟨l, hl, rfl⟩ :=
        (pdQcut_ok_labels hs (by decide) (by decide) (by decide) hq).2 o ho
      refine ⟨l, rfl, ?_⟩
      have hsub : ∀ x ∈ labels4.take (q4.length - 1), x ∈ tierLabels := by decide
      exact hsub l hl
    · split at ho
      · obtain ⟨x, hx, rfl⟩ := List.mem_map.mp ho
        by_cases hxm : x ≤ medianQ s
        · exact ⟨"Baja", by simp [hxm], by decide⟩
        · exact ⟨"Alta", by simp [hxm], by decide⟩
      · split at ho
        · obtain ⟨x, hx, rfl⟩ := List.mem_map.mp ho
          by_cases h33 : x ≤ quantileOf s (33 / 100)
          · exact ⟨"Muy baja", by simp [h33], by decide⟩
          · by_cases h67 : x ≤ quantileOf s (67 / 100)
            · exact ⟨"Baja", by simp [h33, h67], by decide⟩
            · exact ⟨"Media", by simp [h33, h67], by decide⟩
        · rename_i hn2 hn3
          have hmin1 : min (nuniqueQ s) 3 = 3 := by omega
          have hmin2 : min (nuniqueQ s - 1) 3 = 3 := by omega
          rw [hmin1, hmin2] at ho
          split at ho
          · rename_i out3 hq3
            obtain ⟨l, hl, rfl⟩ :=
              (pdQcut_ok_labels hs (by decide) (by decide) (by decide) hq3).2 o ho
            refine ⟨l, rfl, ?_⟩
            have hsub : ∀ x ∈ (["Baja", "Media", "Alta"] : List String).take 3,
                x ∈ tierLabels := by decide
            exact hsub l hl
          · obtain ⟨x, hx, rfl⟩ := List.mem_map.mp ho
            by_cases hxm : x ≤ medianQ s
            · exact ⟨"Baja", by simp [hxm], by decide⟩
            · exact ⟨"Alta", by simp [hxm], by decide⟩

theorem ne_nil_of_nuniqueQ_pos {s : List ℚ} (h : 1 ≤ nuniqueQ s) : s ≠ [] := by
  intro hnil
  subst hnil
  simp [nuniqueQ, uniqueFirst, uniqueFirstAux] at h

theorem pdQcut_error_of_dup {s : List ℚ} (hdup : hasDupEdges s) :
    pdQcut s q4 (labels4.take (q4.length - 1)) = Except.error () := by
  simp only [hasDupEdges, quartileEdges] at hdup
  have hlen5 : (q4.map (quantileSorted (List.insertionSort (· ≤ ·) s))).length = 5 := by
    simp [q4]
  have hlab : (labels4.take (q4.length - 1)).length = 4 := by decide
  simp only [pdQcut]
  rw [if_pos
    (show (uniqueFirst (q4.map (quantileSorted (List.insertionSort (· ≤ ·) s)))).length <
          (q4.map (quantileSorted (List.insertionSort (· ≤ ·) s))).length ∧
        (q4.map (quantileSorted (List.insertionSort (· ≤ ·) s))).length ≠ 2 from
      ⟨hdup, by rw [hlen5]; omega⟩)]
  rw [hlen5] at hdup
  rw [if_pos
    (show (labels4.take (q4.length - 1)).length ≠
        (uniqueFirst (q4.map (quantileSorted (List.insertionSort (· ≤ ·) s)))).length - 1
      from by rw [hlab]; omega)]

/-! ## Helper lemmas: the opportunity scorer -/

theorem filter_eq_of_nodup {α : Type} [DecidableEq α] {l : List α} (h : l.Nodup)
    (a : α) : l.filter (fun b => decide (b = a)) = if a ∈ l then [a] else [] := by
  induction l with
  | nil => simp
  | cons b t ih =>
    rcases List.nodup_cons.mp h with ⟨hbt, ht⟩
    by_cases hba : b = a
    · subst hba
      rw [List.filter_cons_of_pos (by simp)]
      rw [ih ht, if_neg hbt, if_pos (List.mem_cons_self _ _)]
    · rw [List.filter_cons_of_neg (by simp [hba])]
      rw [ih ht]
      by_cases hat : a ∈ t
      · rw [if_pos hat, if_pos (List.mem_cons_of_mem _ hat)]
      · rw [if_neg hat, if_neg (by
          intro hmem
          rcases List.mem_cons.mp hmem with rfl | hmem
          · exact hba rfl
          · exact hat hmem)]

theorem filter_groupbySize (keys : List Str) (a : Str) :
    (groupbySize keys).filter (fun p => decide (p.1 = a)) =
      if a ∈ keys then [(a, keys.count a)] else [] := by
  unfold groupbySize
  rw [List.filter_map]
  have hcomp : ((fun p : Str × ℕ => decide (p.1 = a)) ∘ fun b => (b, keys.count b)) =
      fun b => decide (b = a) := rfl
  rw [hcomp]
  have hnd : (List.insertionSort (· ≤ ·) (uniqueFirst keys)).Nodup :=
    ((List.perm_insertionSort _ _).nodup_iff).mpr (nodup_uniqueFirst keys)
  rw [filter_eq_of_nodup hnd a]
  by_cases ha : a ∈ keys
  · rw [if_pos (by simpa [mem_uniqueFirst] using ha), if_pos ha]
    simp
  · rw [if_neg (by simpa [mem_uniqueFirst] using ha), if_neg ha]
    simp

theorem leftMergeCounts_groupbySize (left keys : List Str) :
    leftMergeCounts left (groupbySize keys) =
      left.map (fun a => (a, if a ∈ keys then some (keys.count a) else none)) := by
  induction left with
  | nil => rfl
  | cons a t ih =>
    simp only [leftMergeCounts, List.flatMap_cons, List.map_cons] at ih ⊢
    rw [filter_groupbySize keys a]
    by_cases ha : a ∈ keys
    · rw [if_pos ha, if_pos ha]
      simpa using ih
    · rw [if_neg ha, if_neg ha]
      simpa using ih

theorem comp_eq (left keys : List Str) :
    (leftMergeCounts left (groupbySize keys)).map (fun p => (p.1, p.2.getD 0)) =
      left.map (fun a => (a, keys.count a)) := by
  rw [leftMergeCounts_groupbySize, List.map_map]
  apply List.map_congr_left
  intro a _
  by_cases h : a ∈ keys
  · simp [h]
  · simp [h, List.count_eq_zero.mpr h]

theorem compute_opportunities_spec (df : List BizRec) (act : Str) (level : Level) :
    ((compute_opportunities df act level).map (fun r => r.area)).Perm
        (uniqueFirst (df.map (levelCol level))) ∧
      ∀ r ∈ compute_opportunities df act level,
        r.n_locales = countMatching df act level r.area := by
  have hexist : (match level with
      | Level.barrio => grupo_barrio (df_plot df act)
      | Level.distrito => grupo_distrito (df_plot df act)) =
      groupbySize ((df_plot df act).map (levelCol level)) := by
    cases level <;> rfl
  simp only [compute_opportunities, hexist, comp_eq]
  set keys := (df_plot df act).map (levelCol level) with hkeys
  set all_areas := List.insertionSort (· ≤ ·) (uniqueFirst (df.map (levelCol level)))
    with hareas
  set comp := all_areas.map (fun a => (a, keys.count a)) with hcomp
  set cats := (if 0 < comp.length ∧ 0 < maxN (comp.map (fun p => p.2)) then
      quantile_labels (comp.map fun p => ((p.2 : ℚ)))
    else List.replicate comp.length (some "Sin datos")) with hcats
  have hcatlen : comp.length ≤ cats.length := by
    rw [hcats]
    split
    · simp [quantile_labels_length]
    · simp
  have hrows : ((comp.zip cats).map
      (fun pc : (Str × ℕ) × Option String => ORow.mk pc.1.1 pc.1.2 pc.2)).map
        (fun r => r.area) = comp.map Prod.fst := by
    rw [List.map_map]
    have : ((fun r : ORow => r.area) ∘
        fun pc : (Str × ℕ) × Option String => ORow.mk pc.1.1 pc.1.2 pc.2) =
        (Prod.fst ∘ Prod.fst) := rfl
    rw [this, ← List.map_map, List.map_fst_zip _ _ hcatlen]
  constructor
  · refine ((List.perm_insertionSort rowLe _).map _).trans ?_
    rw [hrows]
    have hfst : comp.map Prod.fst = all_areas := by
      rw [hcomp, List.map_map]
      have : (Prod.fst ∘ fun a : Str => (a, keys.count a)) = id := rfl
      rw [this, List.map_id]
    rw [hfst]
    exact List.perm_insertionSort _ _
  · intro r hr
    rw [List.mem_insertionSort] at hr
    obtain ⟨pc, hpc, rfl⟩ := List.mem_map.mp hr
    have hmem : pc.1 ∈ comp := (List.of_mem_zip hpc).1
    obtain ⟨a, _, ha⟩ := List.mem_map.mp hmem
    have h1 : pc.1.1 = a := by rw [← ha]
    have h2 : pc.1.2 = keys.count a := by rw [← ha]
    show pc.1.2 = countMatching df act level pc.1.1
    rw [h1, h2]
    rfl

/-! ## Helper lemmas: coordinate completion -/

theorem dictGet_ne_nil {β : Type} {m : List (Str × β)} {k : Str} {v : β}
    (h : dictGet m k = some v) : m ≠ [] := by
  intro hm
  subst hm
  simp [dictGet] at h

theorem fillFromIndex_filled {idx : List (Str × GFeature)} {name : BizRec → Str}
    {r : BizRec} {feat : GFeature} {la lo : ℚ}
    (hmiss : rowMissing r = true)
    (hkey : normalize_str (some (name r)) ≠ [])
    (hdict : dictGet idx (normalize_str (some (name r))) = some feat)
    (hcent : feature_centroid feat = (some la, some lo)) :
    fillFromIndex idx name r = { r with lat := some la, lon := some lo } := by
  have hlc : lookupCentroid idx (normalize_str (some (name r))) = (some la, some lo) := by
    unfold lookupCentroid
    rw [if_pos hkey, hdict]
    exact hcent
  unfold fillFromIndex
  rw [if_pos hmiss, hlc]

theorem fillFromIndex_not_missing {idx : List (Str × GFeature)} {name : BizRec → Str}
    {r : BizRec} (h : rowMissing r = false) : fillFromIndex idx name r = r := by
  unfold fillFromIndex
  rw [if_neg (by simp [h])]

theorem fillFromIndex_cases (idx : List (Str × GFeature)) (name : BizRec → Str)
    (r : BizRec) :
    fillFromIndex idx name r = r ∨
      ∃ la lo, fillFromIndex idx name r = { r with lat := some la, lon := some lo } := by
  unfold fillFromIndex
  split
  · split
    · rename_i la lo heq
      exact Or.inr ⟨la, lo, rfl⟩
    · exact Or.inl rfl
  · exact Or.inl rfl

theorem fillFromIndex_of_still_missing {idx : List (Str × GFeature)}
    {name : BizRec → Str} {r : BizRec}
    (h : rowMissing (fillFromIndex idx name r) = true) :
    fillFromIndex idx name r = r := by
  rcases fillFromIndex_cases idx name r with heq | ⟨la, lo, heq⟩
  · exact heq
  · rw [heq] at h
    simp [rowMissing] at h

theorem fillFromIndex_id {idx : List (Str × GFeature)} {name : BizRec → Str}
    {r : BizRec}
    (hfail : ∀ feat, dictGet idx (normalize_str (some (name r))) = some feat →
      (feature_centroid feat).1 = none ∨ (feature_centroid feat).2 = none) :
    fillFromIndex idx name r = r := by
  have hlc : (lookupCentroid idx (normalize_str (some (name r)))).1 = none ∨
      (lookupCentroid idx (normalize_str (some (name r)))).2 = none := by
    unfold lookupCentroid
    split
    · cases hd : dictGet idx (normalize_str (some (name r))) with
      | none => exact Or.inl rfl
      | some feat => exact hfail feat hd
    · exact Or.inl rfl
  unfold fillFromIndex
  split
  · cases hc : lookupCentroid idx (normalize_str (some (name r))) with
    | mk c1 c2 =>
      rw [hc] at hlc
      cases c1 with
      | none => rfl
      | some la =>
        cases c2 with
        | none => rfl
        | some lo =>
          rcases hlc with h | h <;> simp at h
  · rfl

theorem mem_of_getElem?_eq_some {α : Type} {l : List α} {i : ℕ} {a : α}
    (h : l[i]? = some a) : a ∈ l := by
  obtain ⟨hlt, rfl⟩ := List.getElem?_eq_some.mp h
  exact List.getElem_mem hlt

theorem barrioStep_getElem?_filled {df : List BizRec} {i : ℕ} {r : BizRec}
    (hi : df[i]? = some r) {m : List (Str × GFeature)} {feat : GFeature} {la lo : ℚ}
    (hmiss : rowMissing r = true)
    (hkey : normalize_str (some r.desc_barrio_local) ≠ [])
    (hdict : dictGet m (normalize_str (some r.desc_barrio_local)) = some feat)
    (hcent : feature_centroid feat = (some la, some lo)) :
    (barrioStep (some m) df)[i]? = some { r with lat := some la, lon := some lo } := by
  have hm : m ≠ [] := dictGet_ne_nil hdict
  have htrb : truthyIndex (some m) = true := by
    simp [truthyIndex, List.isEmpty_iff, hm]
  unfold barrioStep
  rw [if_pos htrb, List.getElem?_map, hi, Option.map_some']
  rw [show (some m).getD [] = m from rfl]
  rw [fillFromIndex_filled hmiss hkey hdict hcent]

theorem distritoStep_getElem?_settled {df1 : List BizRec} {i : ℕ} {r1 : BizRec}
    (hi : df1[i]? = some r1) (dIdx : Option (List (Str × GFeature)))
    (hset : rowMissing r1 = false) : (distritoStep dIdx df1)[i]? = some r1 := by
  unfold distritoStep
  split
  · rw [List.getElem?_map, hi, Option.map_some', fillFromIndex_not_missing hset]
  · exact hi

theorem completeCoords_barrio_fill {df : List BizRec} {i : ℕ} {r : BizRec}
    (hi : df[i]? = some r) {m : List (Str × GFeature)}
    (dIdx : Option (List (Str × GFeature))) {feat : GFeature} {la lo : ℚ}
    (hmiss : rowMissing r = true)
    (hkey : normalize_str (some r.desc_barrio_local) ≠ [])
    (hdict : dictGet m (normalize_str (some r.desc_barrio_local)) = some feat)
    (hcent : feature_centroid feat = (some la, some lo)) :
    (completeCoords (some m) dIdx df)[i]? =
      some { r with lat := some la, lon := some lo } := by
  have hany : df.any rowMissing = true :=
    List.any_eq_true.mpr ⟨r, mem_of_getElem?_eq_some hi, hmiss⟩
  have hm : m ≠ [] := dictGet_ne_nil hdict
  have htrb : truthyIndex (some m) = true := by
    simp [truthyIndex, List.isEmpty_iff, hm]
  unfold completeCoords
  rw [if_pos (by simp [hany, htrb])]
  exact distritoStep_getElem?_settled
    (barrioStep_getElem?_filled hi hmiss hkey hdict hcent) dIdx
    (by simp [rowMissing])

theorem completeCoords_distrito_fill {df : List BizRec} {i : ℕ} {r : BizRec}
    (hi : df[i]? = some r) (bIdx : Option (List (Str × GFeature)))
    {dm : List (Str × GFeature)} {feat : GFeature} {la lo : ℚ}
    (hmiss : rowMissing r = true)
    (hstill : ∀ bm, bIdx = some bm →
      rowMissing (fillFromIndex bm (fun x => x.desc_barrio_local) r) = true)
    (hkey : normalize_str (some r.desc_distrito_local) ≠ [])
    (hdict : dictGet dm (normalize_str (some r.desc_distrito_local)) = some feat)
    (hcent : feature_centroid feat = (some la, some lo)) :
    (completeCoords bIdx (some dm) df)[i]? =
      some { r with lat := some la, lon := some lo } := by
  have hany : df.any rowMissing = true :=
    List.any_eq_true.mpr ⟨r, mem_of_getElem?_eq_some hi, hmiss⟩
  have hdm : dm ≠ [] := dictGet_ne_nil hdict
  have htrd : truthyIndex (some dm) = true := by
    simp [truthyIndex, List.isEmpty_iff, hdm]
  have hstep1 : (barrioStep bIdx df)[i]? = some r := by
    unfold barrioStep
    split
    · rename_i htb
      cases bIdx with
      | none => simp [truthyIndex] at htb
      | some bm =>
        rw [List.getElem?_map, hi, Option.map_some']
        rw [show (some bm).getD [] = bm from rfl]
        rw [fillFromIndex_of_still_missing (hstill bm rfl)]
    · exact hi
  have hany1 : (barrioStep bIdx df).any rowMissing = true :=
    List.any_eq_true.mpr ⟨r, mem_of_getElem?_eq_some hstep1, hmiss⟩
  unfold completeCoords
  rw [if_pos (by simp [hany, htrd])]
  unfold distritoStep
  rw [if_pos (by simp [hany1, htrd])]
  rw [List.getElem?_map, hstep1, Option.map_some']
  rw [show (some dm).getD [] = dm from rfl]
  rw [fillFromIndex_filled hmiss hkey hdict hcent]

theorem completeCoords_unchanged {df : List BizRec} {i : ℕ} {r : BizRec}
    (hi : df[i]? = some r) {bIdx dIdx : Option (List (Str × GFeature))}
    (hbar : ∀ bm, bIdx = some bm →
      fillFromIndex bm (fun x => x.desc_barrio_local) r = r)
    (hdis : ∀ dm, dIdx = some dm →
      fillFromIndex dm (fun x => x.desc_distrito_local) r = r) :
    (completeCoords bIdx dIdx df)[i]? = some r := by
  have hstep1 : (barrioStep bIdx df)[i]? = some r := by
    unfold barrioStep
    split
    · rename_i htb
      cases bIdx with
      | none => simp [truthyIndex] at htb
      | some bm =>
        rw [List.getElem?_map, hi, Option.map_some']
        rw [show (some bm).getD [] = bm from rfl]
        rw [hbar bm rfl]
    · exact hi
  have hstep2 : (distritoStep dIdx (barrioStep bIdx df))[i]? = some r := by
    unfold distritoStep
    split
    · rename_i hcond
      cases dIdx with
      | none => simp [truthyIndex] at hcond
      | some dm =>
        rw [List.getElem?_map, hstep1, Option.map_some']
        rw [show (some dm).getD [] = dm from rfl]
        rw [hdis dm rfl]
    · exact hstep1
  unfold completeCoords
  split
  · exact hstep2
  · exact hi

/-! ## Claims C1 and C2 -/

/-- C1 (amended): when a count series has at least two distinct values but
its 0/25/50/75/100th-percentile boundaries coincide, the four-way
`pd.qcut(duplicates="drop", labels=…)` call does *not* return a merged
(coarsened) quartile split: dropping the duplicate edges makes the four
labels mismatch the merged bins, so pandas raises `ValueError`
(`Except.error`).  `quantile_labels` catches it and still labels every row
through its fallback ladder, so no error escapes the function. -/
theorem C1_duplicate_boundaries_fallback (s : List ℚ) (h2 : 2 ≤ nuniqueQ s)
    (hdup : hasDupEdges s) :
    pdQcut s q4 (labels4.take (q4.length - 1)) = Except.error () ∧
      (quantile_labels s).length = s.length ∧
      ∀ o ∈ quantile_labels s, ∃ l, o = some l ∧ l ∈ tierLabels :=
  ⟨pdQcut_error_of_dup hdup, quantile_labels_length s,
    quantile_labels_valid (ne_nil_of_nuniqueQ_pos (le_trans one_le_two h2))⟩

/-- C1 counterexample: `[0, 0, 0, 1]` has two distinct values and
coinciding quartile boundaries (the edges are `[0, 0, 0, 1/4, 1]`), yet
the four-way qcut raises `ValueError` instead of producing a merged
quartile labeling — the error path *is* entered, and `quantile_labels`
answers from the two-distinct-values fallback (the median split). -/
theorem C1_counterexample :
    2 ≤ nuniqueQ [0, 0, 0, 1] ∧ hasDupEdges [0, 0, 0, 1] ∧
      pdQcut [0, 0, 0, 1] q4 (labels4.take (q4.length - 1)) = Except.error () ∧
      quantile_labels [0, 0, 0, 1] =
        [some "Baja", some "Baja", some "Baja", some "Alta"] :=
  ⟨by decide, by decide, by decide, by decide⟩

/-- Witness for C1: the amended statement at the concrete series
`[0, 0, 0, 1]`. -/
theorem C1_witness :
    pdQcut [0, 0, 0, 1] q4 (labels4.take (q4.length - 1)) = Except.error () ∧
      (quantile_labels [0, 0, 0, 1]).length = ([0, 0, 0, 1] : List ℚ).length ∧
      ∀ o ∈ quantile_labels [0, 0, 0, 1], ∃ l, o = some l ∧ l ∈ tierLabels :=
  C1_duplicate_boundaries_fallback [0, 0, 0, 1] (by decide) (by decide)

/-- C2: tiering totality.  For every non-empty count series,
`quantile_labels` returns one label per row, every label is non-null
(`some`) and drawn from the tier vocabulary — no exception escapes (each
internal `ValueError` is caught by the ladder) — and a series with at most
one distinct value is labelled `"Sin datos"` throughout. -/
theorem C2_tiering_totality (s : List ℚ) (hs : s ≠ []) :
    (quantile_labels s).length = s.length ∧
      (∀ o ∈ quantile_labels s, ∃ l, o = some l ∧ l ∈ tierLabels) ∧
      (nuniqueQ s ≤ 1 →
        quantile_labels s = List.replicate s.length (some "Sin datos")) :=
  ⟨quantile_labels_length s, quantile_labels_valid hs, fun h => by
    unfold quantile_labels
    rw [if_pos h]⟩

/-- Witness for C2: the statement at the constant series `[5, 5]`. -/
theorem C2_witness :
    (quantile_labels [5, 5]).length = ([5, 5] : List ℚ).length ∧
      (∀ o ∈ quantile_labels [5, 5], ∃ l, o = some l ∧ l ∈ tierLabels) ∧
      (nuniqueQ [5, 5] ≤ 1 →
        quantile_labels [5, 5] =
          List.replicate ([5, 5] : List ℚ).length (some "Sin datos")) :=
  C2_tiering_totality [5, 5] (by decide)

/-! ## Claims C3 and C4 -/

/-- C3: zero-fill completeness.  For every activity and granularity the
scorer's rows are, up to order, exactly the distinct area names of the
*full* dataset at that granularity (each exactly once — never fewer), and
every row's count is the number of records of the activity in that area —
zero when the activity is absent there. -/
theorem C3_zero_fill_completeness (df : List BizRec) (act : Str) (level : Level) :
    ((compute_opportunities df act level).map (fun r => r.area)).Perm
        (uniqueFirst (df.map (levelCol level))) ∧
      ((compute_opportunities df act level).map (fun r => r.area)).Nodup ∧
      ∀ r ∈ compute_opportunities df act level,
        r.n_locales = countMatching df act level r.area := by
  obtain ⟨hperm, hcount⟩ := compute_opportunities_spec df act level
  exact ⟨hperm, (hperm.nodup_iff).mpr (nodup_uniqueFirst _), hcount⟩

/-- Witness for C3: the statement at `exampleDf` / activity `X` /
neighborhood granularity, the row membership discharged at the zero-count
area `A`. -/
theorem C3_witness :
    ((compute_opportunities exampleDf ("X".toList) Level.barrio).map
        (fun r => r.area)).Perm
        (uniqueFirst (exampleDf.map (levelCol Level.barrio))) ∧
      ((compute_opportunities exampleDf ("X".toList) Level.barrio).map
        (fun r => r.area)).Nodup ∧
      (ORow.mk ("A".toList) 0 (some "Baja")).n_locales =
        countMatching exampleDf ("X".toList) Level.barrio
          (ORow.mk ("A".toList) 0 (some "Baja")).area :=
  ⟨(C3_zero_fill_completeness exampleDf ("X".toList) Level.barrio).1,
   (C3_zero_fill_completeness exampleDf ("X".toList) Level.barrio).2.1,
   (C3_zero_fill_completeness exampleDf ("X".toList) Level.barrio).2.2 _ (by decide)⟩

/-- C4: ranking determinism.  Scorer output is always sorted by
`(n_locales, area)` ascending — ties in the count broken by area name —
and on the dataset with counts `{A: 0, B: 0, C: 3}` the output order is
exactly `A, B, C`. -/
theorem C4_ranking_determinism :
    (∀ (df : List BizRec) (act : Str) (level : Level),
        (compute_opportunities df act level).Sorted rowLe) ∧
      (compute_opportunities exampleDf ("X".toList) Level.barrio).map
          (fun r => (r.area, r.n_locales)) =
        [("A".toList, 0), ("B".toList, 0), ("C".toList, 3)] := by
  constructor
  · intro df act level
    exact List.sorted_insertionSort rowLe _
  · decide

/-! ## Claims C5, C6 and C10 -/

/-- C5: coordinate-completion fallback order.  (1) A record missing a
coordinate whose normalized barrio name maps to a boundary with a fully
defined centroid ends up with exactly that barrio centroid — whatever the
distrito index holds.  (2) A record still missing after the barrio pass
whose normalized distrito name maps to a boundary with a fully defined
centroid ends up with the distrito centroid. -/
theorem C5_fallback_order :
    (∀ (df : List BizRec) (i : ℕ) (r : BizRec)
       (m : List (Str × GFeature)) (dIdx : Option (List (Str × GFeature)))
       (feat : GFeature) (la lo : ℚ),
       df[i]? = some r → rowMissing r = true →
       normalize_str (some r.desc_barrio_local) ≠ [] →
       dictGet m (normalize_str (some r.desc_barrio_local)) = some feat →
       feature_centroid feat = (some la, some lo) →
       (completeCoords (some m) dIdx df)[i]? =
         some { r with lat := some la, lon := some lo }) ∧
    (∀ (df : List BizRec) (i : ℕ) (r : BizRec)
       (bIdx : Option (List (Str × GFeature))) (dm : List (Str × GFeature))
       (feat : GFeature) (la lo : ℚ),
       df[i]? = some r → rowMissing r = true →
       (∀ bm, bIdx = some bm →
         rowMissing (fillFromIndex bm (fun x => x.desc_barrio_local) r) = true) →
       normalize_str (some r.desc_distrito_local) ≠ [] →
       dictGet dm (normalize_str (some r.desc_distrito_local)) = some feat →
       feature_centroid feat = (some la, some lo) →
       (completeCoords bIdx (some dm) df)[i]? =
         some { r with lat := some la, lon := some lo }) :=
  ⟨fun _ _ _ _ dIdx _ _ _ hi hmiss hkey hdict hcent =>
     completeCoords_barrio_fill hi dIdx hmiss hkey hdict hcent,
   fun _ _ _ bIdx _ _ _ _ hi hmiss hstill hkey hdict hcent =>
     completeCoords_distrito_fill hi bIdx hmiss hstill hkey hdict hcent⟩

/-- Witness for C5: a record of barrio `B` gets `B`'s centroid `(2, 1)`
although district `D`'s centroid `(30, 10)` is also available, and a
record of unknown barrio `Z` falls back to `D`'s centroid. -/
theorem C5_witness :
    (completeCoords (some [("B".toList, featB)]) (some [("D".toList, featD)])
        [⟨"X".toList, "B".toList, "D".toList, none, none⟩])[0]? =
      some ⟨"X".toList, "B".toList, "D".toList, some 2, some 1⟩ ∧
    (completeCoords (some [("B".toList, featB)]) (some [("D".toList, featD)])
        [⟨"X".toList, "Z".toList, "D".toList, none, none⟩])[0]? =
      some ⟨"X".toList, "Z".toList, "D".toList, some 30, some 10⟩ :=
  ⟨C5_fallback_order.1 _ 0 ⟨"X".toList, "B".toList, "D".toList, none, none⟩ _ _
     featB 2 1 (by decide) (by decide) (by decide) (by decide) (by decide),
   C5_fallback_order.2 _ 0 ⟨"X".toList, "Z".toList, "D".toList, none, none⟩ _ _
     featD 30 10 (by decide) (by decide)
     (fun bm hbm => by injection hbm with h; subst h; decide)
     (by decide) (by decide) (by decide)⟩

/-- C6: an undefined (NaN) centroid is never substituted.  (1) Pass level:
whenever every boundary matched by a record's looked-up name has a centroid
with an undefined component, the fill pass leaves the record exactly as it
was.  (2) Pipeline level: a record all of whose matching boundaries (barrio
and distrito tiers alike) have undefined centroids comes out of coordinate
completion unchanged — its coordinates stay undefined if they were
undefined, and no fabricated point is written. -/
theorem C6_nan_never_substituted :
    (∀ (idx : List (Str × GFeature)) (name : BizRec → Str) (r : BizRec),
       (∀ feat, dictGet idx (normalize_str (some (name r))) = some feat →
         (feature_centroid feat).1 = none ∨ (feature_centroid feat).2 = none) →
       fillFromIndex idx name r = r) ∧
    (∀ (df : List BizRec) (i : ℕ) (r : BizRec)
       (bIdx dIdx : Option (List (Str × GFeature))),
       df[i]? = some r →
       (∀ bm, bIdx = some bm → ∀ feat,
         dictGet bm (normalize_str (some r.desc_barrio_local)) = some feat →
         (feature_centroid feat).1 = none ∨ (feature_centroid feat).2 = none) →
       (∀ dm, dIdx = some dm → ∀ feat,
         dictGet dm (normalize_str (some r.desc_distrito_local)) = some feat →
         (feature_centroid feat).1 = none ∨ (feature_centroid feat).2 = none) →
       (completeCoords bIdx dIdx df)[i]? = some r) :=
  ⟨fun _ _ _ hfail => fillFromIndex_id hfail,
   fun _ _ _ _ _ hi hbar hdis =>
     completeCoords_unchanged hi
       (fun bm hbm => fillFromIndex_id (hbar bm hbm))
       (fun dm hdm => fillFromIndex_id (hdis dm hdm))⟩

/-- Witness for C6: a record whose barrio and distrito both match the
malformed boundary `featBad` is left untouched by the pass and by the whole
completion (here with one coordinate defined and one undefined). -/
theorem C6_witness :
    fillFromIndex [("M".toList, featBad)] (fun x => x.desc_barrio_local)
        ⟨"X".toList, "M".toList, "M".toList, some 1, none⟩ =
      ⟨"X".toList, "M".toList, "M".toList, some 1, none⟩ ∧
    (completeCoords (some [("M".toList, featBad)]) (some [("M".toList, featBad)])
        [⟨"X".toList, "M".toList, "M".toList, some 1, none⟩])[0]? =
      some ⟨"X".toList, "M".toList, "M".toList, some 1, none⟩ :=
  ⟨C6_nan_never_substituted.1 _ _ _ (fun feat h => by
      rw [show dictGet [("M".toList, featBad)]
          (normalize_str (some (⟨"X".toList, "M".toList, "M".toList, some 1,
            none⟩ : BizRec).desc_barrio_local)) = some featBad from by decide] at h
      injection h with h
      subst h
      decide),
   C6_nan_never_substituted.2 _ 0
     ⟨"X".toList, "M".toList, "M".toList, some 1, none⟩ _ _ (by decide)
     (fun bm hbm feat h => by
       injection hbm with hbm
       subst hbm
       rw [show dictGet [("M".toList, featBad)]
           (normalize_str (some (⟨"X".toList, "M".toList, "M".toList, some 1,
             none⟩ : BizRec).desc_barrio_local)) = some featBad from by decide] at h
       injection h with h
       subst h
       decide)
     (fun dm hdm feat h => by
       injection hdm with hdm
       subst hdm
       rw [show dictGet [("M".toList, featBad)]
           (normalize_str (some (⟨"X".toList, "M".toList, "M".toList, some 1,
             none⟩ : BizRec).desc_distrito_local)) = some featBad from by decide] at h
       injection h with h
       subst h
       decide)⟩

/-- C10 (implicit): the fill overwrites both coordinate columns together.
A record with exactly one of latitude/longitude defined whose barrio maps
to a fully defined centroid comes out with *both* columns equal to the
centroid — the originally defined coordinate is not preserved. -/
theorem C10_overwrites_both (df : List BizRec) (i : ℕ) (r : BizRec)
    (m : List (Str × GFeature)) (dIdx : Option (List (Str × GFeature)))
    (feat : GFeature) (la lo : ℚ)
    (hi : df[i]? = some r)
    (hone : (r.lat = none ∧ r.lon ≠ none) ∨ (r.lat ≠ none ∧ r.lon = none))
    (hkey : normalize_str (some r.desc_barrio_local) ≠ [])
    (hdict : dictGet m (normalize_str (some r.desc_barrio_local)) = some feat)
    (hcent : feature_centroid feat = (some la, some lo)) :
    (completeCoords (some m) dIdx df)[i]? =
      some { r with lat := some la, lon := some lo } := by
  have hmiss : rowMissing r = true := by
    rcases hone with ⟨h1, _⟩ | ⟨_, h2⟩
    · simp [rowMissing, h1]
    · simp [rowMissing, h2]
  exact completeCoords_barrio_fill hi dIdx hmiss hkey hdict hcent

/-- Witness for C10: a record with `lon = 7` defined but `lat` missing has
both columns overwritten by barrio `B`'s centroid `(2, 1)` — the defined
`lon = 7` is replaced by `1`. -/
theorem C10_witness :
    (completeCoords (some [("B".toList, featB)]) none
        [⟨"X".toList, "B".toList, "D".toList, none, some 7⟩])[0]? =
      some ⟨"X".toList, "B".toList, "D".toList, some 2, some 1⟩ :=
  C10_overwrites_both _ 0 ⟨"X".toList, "B".toList, "D".toList, none, some 7⟩ _
    none featB 2 1 (by decide)
    (Or.inl ⟨by decide, by decide⟩) (by decide) (by decide) (by decide)

/-! ## Helper lemmas: the text normalizer -/

/-- Characters the normalizer can emit are NFKD-stable, non-combining and
uppercase-stable: a finite check over the modelled character data. -/
theorem modeled_output_stable :
    ∀ e ∈ modeledChars, ∀ d ∈ nfkdChar e, combiningChar d = false →
      nfkdChar (upperChar d) = [upperChar d] ∧
        combiningChar (upperChar d) = false ∧
        upperChar (upperChar d) = upperChar d := by decide

theorem mem_of_mem_pyStrip {c : Char} {s : Str} (h : c ∈ pyStrip s) : c ∈ s := by
  unfold pyStrip at h
  rw [List.mem_reverse] at h
  have h1 : c ∈ (s.dropWhile isPySpace).reverse :=
    (List.dropWhile_sublist _).subset h
  rw [List.mem_reverse] at h1
  exact (List.dropWhile_sublist _).subset h1

/-- Every character of a normalized (modelled) string is NFKD-stable,
non-combining and uppercase-stable. -/
theorem normalize_str_chars {s : Str} (hchars : ∀ c ∈ s, c ∈ modeledChars) :
    ∀ c ∈ normalize_str (some s),
      nfkdChar c = [c] ∧ combiningChar c = false ∧ upperChar c = c := by
  intro c hc
  simp only [normalize_str] at hc
  obtain ⟨d, hd, rfl⟩ := List.mem_map.mp hc
  rw [List.mem_filter] at hd
  obtain ⟨hdm, hdc⟩ := hd
  obtain ⟨e, he, hde⟩ := List.mem_flatMap.mp hdm
  have hem : e ∈ modeledChars := hchars e (mem_of_mem_pyStrip he)
  have hcomb : combiningChar d = false := by simpa using hdc
  exact modeled_output_stable e hem d hde hcomb

theorem flatMap_nfkd_eq_self {l : List Char} (h : ∀ c ∈ l, nfkdChar c = [c]) :
    l.flatMap nfkdChar = l := by
  induction l with
  | nil => rfl
  | cons a t ih =>
    rw [List.flatMap_cons, h a (List.mem_cons_self _ _),
      ih (fun c hc => h c (List.mem_cons_of_mem _ hc))]
    rfl

theorem mapChar_eq_self {f : Char → Char} {l : List Char} (h : ∀ c ∈ l, f c = c) :
    l.map f = l := by
  induction l with
  | nil => rfl
  | cons a t ih =>
    rw [List.map_cons, h a (List.mem_cons_self _ _),
      ih (fun c hc => h c (List.mem_cons_of_mem _ hc))]

/-! ## Claim C7 -/

/-- C7 (amended): `normalize_str` maps a missing value to `""`, and it is
idempotent on every modelled string whose normalized form carries no
leading or trailing whitespace.  (The restriction is forced: an NFKD
*compatibility* decomposition can insert a space — e.g. U+00B4 ACUTE
ACCENT decomposes to space + combining acute — and when that space lands
at an end of the result, the second normalization's `strip` removes it.) -/
theorem C7_normalize_idempotence :
    normalize_str none = [] ∧
      ∀ s : Str, (∀ c ∈ s, c ∈ modeledChars) →
        pyStrip (normalize_str (some s)) = normalize_str (some s) →
        normalize_str (some (normalize_str (some s))) = normalize_str (some s) := by
  refine ⟨rfl, fun s hchars hstrip => ?_⟩
  have hch := normalize_str_chars hchars
  show (((pyStrip (normalize_str (some s))).flatMap nfkdChar).filter
      (fun c => !combiningChar c)).map upperChar = normalize_str (some s)
  rw [hstrip, flatMap_nfkd_eq_self (fun c hc => (hch c hc).1),
    List.filter_eq_self.mpr (fun c hc => by rw [(hch c hc).2.1]; rfl),
    mapChar_eq_self (fun c hc => (hch c hc).2.2)]

/-- C7 counterexample: U+00B4 ACUTE ACCENT is in the modelled character
set, normalizes to a single space (its NFKD decomposition is space +
U+0301, the combining mark is dropped), and normalizing again strips that
space — so `normalize(normalize(x)) ≠ normalize(x)` at `x = "´"`. -/
theorem C7_counterexample :
    '´' ∈ modeledChars ∧ normalize_str (some ['´']) = [' '] ∧
      normalize_str (some (normalize_str (some ['´']))) = [] ∧
      normalize_str (some (normalize_str (some ['´']))) ≠ normalize_str (some ['´']) :=
  ⟨by decide, by decide, by decide, by decide⟩

/-- Witness for C7: idempotence at the modelled string `"  Café  "`. -/
theorem C7_witness :
    normalize_str (some (normalize_str (some "  Café  ".toList))) =
      normalize_str (some "  Café  ".toList) :=
  C7_normalize_idempotence.2 "  Café  ".toList (by decide) (by decide)

/-! ## Claim C8 -/

/-- C8 (amended): a missing boundary file makes `load_geojson` return
`(None, None)` without raising, and downstream coordinate completion with
no usable index leaves the dataframe untouched (the tier is skipped).  (An
*existing but unreadable/unparseable* file is different: `open`/`json.load`
raise and nothing in `load_geojson` catches it — see the
counterexample.) -/
theorem C8_boundary_loader_degrades :
    (∀ pk : Str, load_geojson none pk = Except.ok (none, none)) ∧
      ∀ df : List BizRec, completeCoords none none df = df := by
  refine ⟨fun pk => rfl, fun df => ?_⟩
  unfold completeCoords
  rw [if_neg (by simp [truthyIndex])]

/-- C8 counterexample: an existing file whose read or parse raises makes
`load_geojson` propagate the exception instead of returning an empty
mapping. -/
theorem C8_counterexample :
    load_geojson (some (Except.error ())) ("NOMBRE".toList) = Except.error () := rfl

/-! ## Helper lemmas: coordinate independence -/

theorem stripCoords_fields {a b : BizRec} (h : stripCoords a = stripCoords b) :
    a.desc_epigrafe = b.desc_epigrafe ∧ a.desc_barrio_local = b.desc_barrio_local ∧
      a.desc_distrito_local = b.desc_distrito_local := by
  simp only [stripCoords, Prod.mk.injEq] at h
  exact ⟨h.1, h.2.1, h.2.2⟩

theorem map_col_eq_of_stripCoords {df1 df2 : List BizRec}
    (h : df1.map stripCoords = df2.map stripCoords) (level : Level) :
    df1.map (levelCol level) = df2.map (levelCol level) := by
  induction df1 generalizing df2 with
  | nil =>
    cases df2 with
    | nil => rfl
    | cons b u => simp at h
  | cons a t ih =>
    cases df2 with
    | nil => simp at h
    | cons b u =>
      simp only [List.map_cons, List.cons.injEq] at h ⊢
      obtain ⟨hab, htu⟩ := h
      obtain ⟨hep, hba, hdi⟩ := stripCoords_fields hab
      refine ⟨?_, ih htu⟩
      cases level
      · exact hba
      · exact hdi

theorem df_plot_cons (a : BizRec) (t : List BizRec) (act : Str) :
    df_plot (a :: t) act =
      if a.desc_epigrafe = normalize_str (some act) then a :: df_plot t act
      else df_plot t act := by
  simp only [df_plot, List.filter_cons]
  split
  · rename_i hcond
    rw [if_pos (by simpa using hcond)]
  · rename_i hcond
    rw [if_neg (by simpa using hcond)]

theorem df_plot_map_col_eq {df1 df2 : List BizRec}
    (h : df1.map stripCoords = df2.map stripCoords) (act : Str) (level : Level) :
    (df_plot df1 act).map (levelCol level) = (df_plot df2 act).map (levelCol level) := by
  induction df1 generalizing df2 with
  | nil =>
    cases df2 with
    | nil => rfl
    | cons b u => simp at h
  | cons a t ih =>
    cases df2 with
    | nil => simp at h
    | cons b u =>
      simp only [List.map_cons, List.cons.injEq] at h
      obtain ⟨hab, htu⟩ := h
      obtain ⟨hep, hba, hdi⟩ := stripCoords_fields hab
      have hcol : levelCol level a = levelCol level b := by
        cases level
        · exact hba
        · exact hdi
      rw [df_plot_cons, df_plot_cons, hep]
      split
      · simp only [List.map_cons, hcol, ih htu]
      · exact ih htu

/-! ## Claim C9 -/

/-- C9: area aggregation (and the whole scorer output) depends only on the
activity and area-name columns, never on the coordinate columns: two
dataframes that agree record-by-record outside lat/lon produce identical
per-area counts at both granularities and identical opportunity tables —
in particular a record whose coordinates are undefined is counted exactly
like one with coordinates. -/
theorem C9_aggregation_coordinate_independent (df1 df2 : List BizRec) (act : Str)
    (h : df1.map stripCoords = df2.map stripCoords) :
    grupo_barrio (df_plot df1 act) = grupo_barrio (df_plot df2 act) ∧
      grupo_distrito (df_plot df1 act) = grupo_distrito (df_plot df2 act) ∧
      ∀ level, compute_opportunities df1 act level = compute_opportunities df2 act level := by
  have hb := df_plot_map_col_eq h act Level.barrio
  have hd := df_plot_map_col_eq h act Level.distrito
  have hgb : grupo_barrio (df_plot df1 act) = grupo_barrio (df_plot df2 act) := by
    show groupbySize ((df_plot df1 act).map (levelCol Level.barrio)) =
      groupbySize ((df_plot df2 act).map (levelCol Level.barrio))
    rw [hb]
  have hgd : grupo_distrito (df_plot df1 act) = grupo_distrito (df_plot df2 act) := by
    show groupbySize ((df_plot df1 act).map (levelCol Level.distrito)) =
      groupbySize ((df_plot df2 act).map (levelCol Level.distrito))
    rw [hd]
  refine ⟨hgb, hgd, fun level => ?_⟩
  cases level with
  | barrio =>
    have hcols := map_col_eq_of_stripCoords h Level.barrio
    simp only [compute_opportunities, hcols, hgb]
  | distrito =>
    have hcols := map_col_eq_of_stripCoords h Level.distrito
    simp only [compute_opportunities, hcols, hgd]

/-- Witness for C9: a one-record dataframe with undefined coordinates
versus the same record with coordinates `(1, 2)`. -/
theorem C9_witness :
    grupo_barrio (df_plot [⟨"X".toList, "B".toList, "D".toList, none, none⟩]
        ("X".toList)) =
      grupo_barrio (df_plot [⟨"X".toList, "B".toList, "D".toList, some 1, some 2⟩]
        ("X".toList)) ∧
    grupo_distrito (df_plot [⟨"X".toList, "B".toList, "D".toList, none, none⟩]
        ("X".toList)) =
      grupo_distrito (df_plot [⟨"X".toList, "B".toList, "D".toList, some 1, some 2⟩]
        ("X".toList)) ∧
    ∀ level, compute_opportunities
        [⟨"X".toList, "B".toList, "D".toList, none, none⟩] ("X".toList) level =
      compute_opportunities
        [⟨"X".toList, "B".toList, "D".toList, some 1, some 2⟩] ("X".toList) level :=
  C9_aggregation_coordinate_independent _ _ _ (by decide)

end Madrid
